import Mathlib

/-!
Verification development for the BODACC ingestion pipeline
(`02_get_BODACC_by_day.py` and `03_filter_BODACC_by_day.py`).

The Python code is embedded shallowly: pure fragments become Lean functions,
the stateful fetch/merge/filter loops become explicit state-passing functions,
and the remote API is modelled as a list of responses consumed in order.
-/

set_option maxRecDepth 10000

namespace Bodacc

/-- A single apostrophe, kept as a named constant so that string literals in
this file stay plain ASCII without quote characters. -/
def apo : String := String.singleton (Char.ofNat 39)

/-! ## Paginated fetcher (`_fetch_day`)

`_fetch_day(session, api_url, date_value, publicationavis, per_page,
max_retries, backoff_base, too_many_requests_timeout_sec, cert_file, tmp_dir)`
drives cursor-based pagination for one (day, category) pair.  The network is
modelled as a list of `ApiResponse` values consumed one per `session.get`
call; sleeps are recorded rather than performed. -/
/-- An announcement record as the fetcher sees it: only the `numeroannonce`
field matters to the pagination loop (`r.get("numeroannonce")`; an absent or
null field is `none`).  The spec fixes the sequence number as integer-valued. -/
structure FetchRec where
  numero : Option Int
  deriving DecidableEq

/-- One possible outcome of a `session.get` call, as classified by the loop
body: HTTP 429, any other exception-raising outcome (network error, non-2xx
status via `raise_for_status`, JSON decode failure), or a 2xx response whose
payload extracted to the given record list. -/
inductive ApiResponse where
  | rateLimited
  | failure
  | success (records : List FetchRec)
  deriving DecidableEq

/-- The query parameters built at the top of the `while True:` loop. -/
structure PageParams where
  refine : String
  whereClause : String
  orderBy : String
  limit : Nat
  deriving DecidableEq

/-- `params = {"refine": f"dateparution:{date_value:%Y-%m-%d}", "where":
f"publicationavis = '{publicationavis}' AND numeroannonce > {last_numero}",
"order_by": "numeroannonce", "limit": per_page}`. -/
def mkParams (dateStr pub : String) (perPage : Nat) (lastNumero : Int) : PageParams :=
  { refine := "dateparution:" ++ dateStr
    whereClause :=
      "publicationavis = " ++ apo ++ pub ++ apo ++ " AND numeroannonce > " ++ toString lastNumero
    orderBy := "numeroannonce"
    limit := perPage }

/-- The fixed configuration of one `_fetch_day` call. -/
structure FetchCfg where
  dateStr : String
  pub : String
  perPage : Nat
  maxRetries : Nat
  backoffBase : Nat
  timeout429 : Nat
  deriving DecidableEq

/-- The mutable state of the pagination loop: the cursor `last_numero`, the
page counter `page_idx`, the fragments written by `_write_ndjson_part`
(keyed by page index), the accumulated `all_records`, plus observability
logs of every request issued and every sleep performed. -/
structure FetchState where
  lastNumero : Int
  pageIdx : Nat
  staged : List (Nat × List FetchRec)
  allRecords : List FetchRec
  requests : List PageParams
  sleeps : List Nat
  deriving DecidableEq

/-- The request issued for the current cursor value. -/
def reqOf (cfg : FetchCfg) (st : FetchState) : PageParams :=
  mkParams cfg.dateStr cfg.pub cfg.perPage st.lastNumero

/-- `numero_values = [r.get("numeroannonce") for r in records if ...]` followed
by `if numero_values: last_numero = max(max(numero_values), last_numero)`. -/
def updateNumero (last : Int) (records : List FetchRec) : Int :=
  let vals := records.filterMap FetchRec.numero
  match vals.max? with
  | none => last
  | some m => max m last

/-- The state after a successful non-empty page: `all_records.extend(records)`,
`page_idx += 1`, `_write_ndjson_part(...)`, and the cursor update — together
with the request that fetched the page. -/
def pageStagedState (cfg : FetchCfg) (st : FetchState) (records : List FetchRec) : FetchState :=
  { st with
      requests := st.requests ++ [reqOf cfg st]
      allRecords := st.allRecords ++ records
      pageIdx := st.pageIdx + 1
      staged := st.staged ++ [(st.pageIdx + 1, records)]
      lastNumero := updateNumero st.lastNumero records }

/-- Result of a fetch pass: `completed` (a `return all_records` after a short
or empty page), `abandoned` (the retry loop ran out: the `else` clause of
`for attempt in range(max_retries)` logs and breaks), or `exhaustedResponses`
(the modelled response list ran out — an artifact of finite modelling, the
real server always answers). -/
inductive FetchOutcome where
  | completed
  | abandoned
  | exhaustedResponses
  deriving DecidableEq

/-- The `while True:` / `for attempt in range(max_retries):` loops of
`_fetch_day`, one response consumed per `session.get`.  `attempt` is the
current value of the retry counter for the page being fetched.

* A 429 sleeps `too_many_requests_timeout_sec` and executes `continue`,
  moving to the **next** `attempt` of the same page (the params, hence the
  cursor, are unchanged).
* Any other failure sleeps `backoff_base * 2**attempt` and moves to the next
  attempt.
* A successful page extends `all_records`; an empty page returns at once;
  a non-empty page is staged and the cursor advanced; a short page returns;
  a full page breaks out of the retry loop and the outer loop requests the
  next page with a fresh retry counter. -/
def fetchGo (cfg : FetchCfg) : List ApiResponse → Nat → FetchState → FetchOutcome × FetchState
  | [], attempt, st =>
      if cfg.maxRetries ≤ attempt then (.abandoned, st) else (.exhaustedResponses, st)
  | .rateLimited :: rest, attempt, st =>
      if cfg.maxRetries ≤ attempt then (.abandoned, st)
      else
        fetchGo cfg rest (attempt + 1)
          { st with
              requests := st.requests ++ [reqOf cfg st]
              sleeps := st.sleeps ++ [cfg.timeout429] }
  | .failure :: rest, attempt, st =>
      if cfg.maxRetries ≤ attempt then (.abandoned, st)
      else
        fetchGo cfg rest (attempt + 1)
          { st with
              requests := st.requests ++ [reqOf cfg st]
              sleeps := st.sleeps ++ [cfg.backoffBase * 2 ^ attempt] }
  | .success records :: rest, attempt, st =>
      if cfg.maxRetries ≤ attempt then (.abandoned, st)
      else if records.isEmpty then
        (.completed,
          { st with
              requests := st.requests ++ [reqOf cfg st]
              allRecords := st.allRecords ++ records })
      else if records.length < cfg.perPage then
        (.completed, pageStagedState cfg st records)
      else
        fetchGo cfg rest 0 (pageStagedState cfg st records)

/-- `last_numero = 0`, `page_idx = 0`, `all_records = []` at function entry. -/
def initFetchState : FetchState :=
  { lastNumero := 0, pageIdx := 0, staged := [], allRecords := [], requests := [], sleeps := [] }

/-- One full `_fetch_day` call against a scripted sequence of responses. -/
def fetchDay (cfg : FetchCfg) (responses : List ApiResponse) : FetchOutcome × FetchState :=
  fetchGo cfg responses 0 initFetchState

/-- A sample configuration used for concrete evaluations. -/
def cfgEx : FetchCfg :=
  { dateStr := "2024-01-02", pub := "A", perPage := 2, maxRetries := 2,
    backoffBase := 1, timeout429 := 300 }

/-! ## Fragment staging, merging, orchestration
(`_write_ndjson_part`, `_cleanup_day_parts`, `_merge_day_parts`, `main`) -/
/-- Zero-padded page index, mirroring the `:03d` format specifier: width at
least 3, zero-filled (an index ≥ 1000 prints unpadded, as in Python). -/
def pad3 (n : Nat) : String :=
  if n < 10 then "00" ++ toString n
  else if n < 100 then "0" ++ toString n
  else toString n

/-- One fragment file written by `_write_ndjson_part`, identified by the
components of its filename; its content is the page's record list
(one NDJSON line per record). -/
structure Frag where
  day : String
  cat : String
  pageIdx : Nat
  content : List FetchRec
  deriving DecidableEq

/-- `f"{day:%Y%m%d}_bodacc_update_part_{publicationavis}_{page_idx:03d}.jsonl"`
(the `day` field already holds the `%Y%m%d` rendering). -/
def fragName (f : Frag) : String :=
  f.day ++ "_bodacc_update_part_" ++ f.cat ++ "_" ++ pad3 f.pageIdx ++ ".jsonl"

/-- The staging/output area: the fragment files of `tmp_dir` (in creation
order) and the per-day artifacts of `daily_output_dir`, keyed by the
`%Y%m%d` day string. -/
structure FS where
  frags : List Frag
  artifacts : List (String × List FetchRec)
  deriving DecidableEq

/-- `os.path.exists(target_daily_file)`. -/
def hasArtifact (fs : FS) (day : String) : Bool :=
  fs.artifacts.any (fun a => a.1 == day)

def getArtifact (fs : FS) (day : String) : Option (List FetchRec) :=
  (fs.artifacts.find? (fun a => a.1 == day)).map (fun a => a.2)

/-- `_cleanup_day_parts`: unlink every `{day}_bodacc_update_part_*.jsonl`.
Day keys are 8-digit strings, so the glob prefix match coincides with
equality on the `day` component. -/
def cleanupDayParts (fs : FS) (day : String) : FS :=
  { fs with frags := fs.frags.filter (fun f => !(f.day == day)) }

/-- The fragments picked up by the glob of `_merge_day_parts`. -/
def dayPartsOf (fs : FS) (day : String) : List Frag :=
  fs.frags.filter (fun f => f.day == day)

/-- Computable lexicographic comparison of character lists (the comparison
Python performs on strings). -/
def charListLt : List Char → List Char → Bool
  | [], [] => false
  | [], _ :: _ => true
  | _ :: _, [] => false
  | a :: as, b :: bs => if a < b then true else if b < a then false else charListLt as bs

/-- Computable string comparison. -/
def strLtB (s t : String) : Bool := charListLt s.data t.data

/-- Stable insertion into a name-sorted list: the comparison `sorted(...)`
performs on the globbed fragment pathnames (`f` goes before `g` unless
`g`'s name is strictly smaller). -/
def insertFrag (f : Frag) : List Frag → List Frag
  | [] => [f]
  | g :: gs =>
      if strLtB (fragName g) (fragName f) then g :: insertFrag f gs else f :: g :: gs

/-- `sorted(Path(tmp_dir).glob(...))`: sort the day's fragments by filename. -/
def sortFrags : List Frag → List Frag
  | [] => []
  | f :: fs => insertFrag f (sortFrags fs)

/-- `_merge_day_parts`: with no fragments, `touch()` an empty day artifact
(`touch` does not clobber the content of an existing file); otherwise write
the concatenation of the fragments in filename order to the day artifact
(`open(..., "w")` overwrites any previous entry) and unlink the consumed
fragments. -/
def mergeDayParts (fs : FS) (day : String) : FS :=
  let parts := sortFrags (dayPartsOf fs day)
  if parts.isEmpty then
    if hasArtifact fs day then fs
    else { fs with artifacts := fs.artifacts ++ [(day, [])] }
  else
    { frags := fs.frags.filter (fun f => !(f.day == day))
      artifacts := fs.artifacts.filter (fun a => !(a.1 == day)) ++
        [(day, parts.flatMap Frag.content)] }

/-- `PUBLICATION_TYPES = ("A", "B", "C")`. -/
def PUBLICATION_TYPES : List String := ["A", "B", "C"]

/-- The per-day fetch settings `main` passes down (`config.ini` values plus
the two renderings of the day). -/
structure DayCfg where
  dateStr : String
  dayKey : String
  perPage : Nat
  maxRetries : Nat
  backoffBase : Nat
  timeout429 : Nat
  deriving DecidableEq

def catCfg (d : DayCfg) (pub : String) : FetchCfg :=
  { dateStr := d.dateStr, pub := pub, perPage := d.perPage, maxRetries := d.maxRetries,
    backoffBase := d.backoffBase, timeout429 := d.timeout429 }

/-- One `_fetch_day` call with its side effects on the staging area: each
page the fetcher wrote becomes a fragment file of this (day, category). -/
def stageFetch (cfgF : FetchCfg) (responses : List ApiResponse) (dayKey : String) (fs : FS) :
    FS × List PageParams :=
  let res := fetchDay cfgF responses
  ({ fs with frags := fs.frags ++ res.2.staged.map (fun p => ⟨dayKey, cfgF.pub, p.1, p.2⟩) },
   res.2.requests)

/-- The per-day body of `main`'s loop: skip the day entirely when its
artifact already exists; otherwise clean stale fragments, fetch every
publication type in the fixed order, then merge once.  The second component
collects every network request issued for the day. -/
def processDay (d : DayCfg) (env : String → List ApiResponse) (fs : FS) : FS × List PageParams :=
  if hasArtifact fs d.dayKey then (fs, [])
  else
    let fs0 := cleanupDayParts fs d.dayKey
    let res := PUBLICATION_TYPES.foldl
      (fun acc pub =>
        let r := stageFetch (catCfg d pub) (env pub) d.dayKey acc.1
        (r.1, acc.2 ++ r.2))
      (fs0, [])
    (mergeDayParts res.1 d.dayKey, res.2)

/-- The rank of a publication type in the fixed `("A", "B", "C")` tuple. -/
def catIdx (c : String) : Nat :=
  if c = "A" then 0 else if c = "B" then 1 else 2

/-- The (category, page) order the staging discipline produces. -/
def fragKeyLt (f g : Frag) : Prop :=
  catIdx f.cat < catIdx g.cat ∨ (f.cat = g.cat ∧ f.pageIdx < g.pageIdx)

instance : DecidableRel fragKeyLt := fun f g =>
  inferInstanceAs (Decidable (catIdx f.cat < catIdx g.cat ∨
    (f.cat = g.cat ∧ f.pageIdx < g.pageIdx)))

/-- A filesystem whose artifact for day `20240102` already exists. -/
def fsEx : FS := { frags := [], artifacts := [("20240102", [])] }

def dayCfgEx : DayCfg :=
  { dateStr := "2024-01-02", dayKey := "20240102", perPage := 2, maxRetries := 2,
    backoffBase := 1, timeout429 := 300 }

/-- Two staged fragments for day `20240103`, category "A", pages 1 and 2. -/
def fsEx5 : FS :=
  { frags := [⟨"20240103", "A", 1, [⟨some 3⟩]⟩, ⟨"20240103", "A", 2, [⟨some 5⟩]⟩],
    artifacts := [] }

/-! ## JSON values and the filter stage (`03_filter_BODACC_by_day.py`) -/
/-- A JSON-like value as the filter stage manipulates it.  A string carries,
alongside itself, the result of attempting `json.loads` on it (`none` when it
does not parse as JSON): `_deep_collect_text` recursively descends into that
parse result, and carrying the parse alongside the text keeps the embedding
structurally recursive. -/
inductive JVal where
  | null
  | bool (b : Bool)
  | num (n : Int)
  | str (s : String) (parsed : Option JVal)
  | arr (elems : List JVal)
  | obj (fields : List (String × JVal))

/-- A record is a JSON object: its field list (Python dicts hold each key
once, in insertion order). -/
def JRecord : Type := List (String × JVal)

/-- `record.get(key)` (`None`, modelled as `none`, when absent). -/
def recordGet (r : List (String × JVal)) (key : String) : Option JVal :=
  (r.find? (fun kv => kv.1 == key)).map (fun kv => kv.2)

/-- `"".join(ch for ch in value if ch.isdigit())`.  (Python's `isdigit`
accepts some further Unicode digit characters; identifiers here are ASCII.) -/
def stripNonDigits (s : String) : String := ⟨s.data.filter Char.isDigit⟩

/-- Python truthiness of a JSON value (`if not registre_values`). -/
def jFalsy : JVal → Bool
  | .null => true
  | .bool b => !b
  | .num n => n == 0
  | .str s _ => s == ""
  | .arr l => l.isEmpty
  | .obj l => l.isEmpty

/-- `_clean_registre_values`: keep only the string entries, strip non-digit
characters from each, drop entries whose stripped form is empty. -/
def cleanRegistreValues (values : List JVal) : List String :=
  values.filterMap (fun v =>
    match v with
    | .str s _ =>
        let d := stripNonDigits s
        if d == "" then none else some d
    | _ => none)

/-- `_matched_sirens`: a falsy or absent `registre` matches nothing; a string
is treated as a one-element list; a list is cleaned element-wise; any other
type matches nothing; the cleaned values found in the SIREN set are
returned. -/
def matchedSirens (record : List (String × JVal)) (sirens : List String) : List String :=
  match recordGet record "registre" with
  | none => []
  | some v =>
      if jFalsy v then []
      else
        match v with
        | .str s p => (cleanRegistreValues [.str s p]).filter (fun c => sirens.contains c)
        | .arr l => (cleanRegistreValues l).filter (fun c => sirens.contains c)
        | _ => []

/-- The string payload of a JSON value, when it is a string. -/
def strOnly : JVal → Option String
  | .str s _ => some s
  | _ => none

/-- The raw identifier candidate strings submitted to cleaning: the
`registre` value itself when it is a string, its string elements when it is
a list. -/
def registreCandidates (record : List (String × JVal)) : List String :=
  match recordGet record "registre" with
  | none => []
  | some v =>
      if jFalsy v then []
      else
        match v with
        | .str s _ => [s]
        | .arr l => l.filterMap strOnly
        | _ => []

/-- `str.lower()` on the Basic Latin and Latin-1 ranges (the ranges French
text uses): uppercase letters, plain or accented, shift by 32. -/
def charLower (c : Char) : Char :=
  let n := c.toNat
  if (65 ≤ n ∧ n ≤ 90) ∨ (192 ≤ n ∧ n ≤ 222 ∧ n ≠ 215) then Char.ofNat (n + 32) else c

/-- Unicode canonical decomposition (NFD) of the accented characters of
French text: base letter followed by a combining mark (grave U+0300, acute
U+0301, circumflex U+0302, diaeresis U+0308, cedilla U+0327); every other
character decomposes to itself. -/
def charNFD (c : Char) : List Char :=
  if c = 'à' then ['a', Char.ofNat 0x300]
  else if c = 'â' then ['a', Char.ofNat 0x302]
  else if c = 'ä' then ['a', Char.ofNat 0x308]
  else if c = 'ç' then ['c', Char.ofNat 0x327]
  else if c = 'è' then ['e', Char.ofNat 0x300]
  else if c = 'é' then ['e', Char.ofNat 0x301]
  else if c = 'ê' then ['e', Char.ofNat 0x302]
  else if c = 'ë' then ['e', Char.ofNat 0x308]
  else if c = 'î' then ['i', Char.ofNat 0x302]
  else if c = 'ï' then ['i', Char.ofNat 0x308]
  else if c = 'ô' then ['o', Char.ofNat 0x302]
  else if c = 'ö' then ['o', Char.ofNat 0x308]
  else if c = 'ù' then ['u', Char.ofNat 0x300]
  else if c = 'û' then ['u', Char.ofNat 0x302]
  else if c = 'ü' then ['u', Char.ofNat 0x308]
  else if c = 'À' then ['A', Char.ofNat 0x300]
  else if c = 'Â' then ['A', Char.ofNat 0x302]
  else if c = 'Ä' then ['A', Char.ofNat 0x308]
  else if c = 'Ç' then ['C', Char.ofNat 0x327]
  else if c = 'È' then ['E', Char.ofNat 0x300]
  else if c = 'É' then ['E', Char.ofNat 0x301]
  else if c = 'Ê' then ['E', Char.ofNat 0x302]
  else if c = 'Ë' then ['E', Char.ofNat 0x308]
  else if c = 'Î' then ['I', Char.ofNat 0x302]
  else if c = 'Ï' then ['I', Char.ofNat 0x308]
  else if c = 'Ô' then ['O', Char.ofNat 0x302]
  else if c = 'Ö' then ['O', Char.ofNat 0x308]
  else if c = 'Ù' then ['U', Char.ofNat 0x300]
  else if c = 'Û' then ['U', Char.ofNat 0x302]
  else if c = 'Ü' then ['U', Char.ofNat 0x308]
  else [c]

/-- `unicodedata.category(c) != "Mn"` for the marks produced above: the
combining diacritical marks block U+0300–U+036F. -/
def isCombiningMark (c : Char) : Bool := 0x300 ≤ c.toNat && c.toNat ≤ 0x36F

/-- `_normalize_text`: lower-case, canonically decompose, drop combining
marks. -/
def normalizeText (s : String) : String :=
  ⟨((s.data.map charLower).flatMap charNFD).filter (fun c => !isCombiningMark c)⟩

/-- Contiguous-sublist search over character lists (leftmost scan). -/
def containsSubList (needle : List Char) : List Char → Bool
  | [] => needle.isEmpty
  | c :: t => needle.isPrefixOf (c :: t) || containsSubList needle t

/-- Python's `needle in hay` substring test. -/
def containsSub (hay needle : String) : Bool := containsSubList needle.data hay.data

/-- `_flag_keywords`: empty text flags nothing; otherwise some keyword must
occur as a substring of the normalized text. -/
def flagKeywords (text : String) (keywords : List String) : Bool :=
  if text == "" then false
  else keywords.any (fun k => containsSub (normalizeText text) k)

/-! `_deep_collect_text`: dictionaries contribute their values' text, lists
their elements' text, strings themselves plus (when the string parses as
JSON) the parse's text; anything else contributes nothing. -/
mutual

def deepCollectText : JVal → List String
  | .obj fields => deepCollectFields fields
  | .arr elems => deepCollectElems elems
  | .str s parsed => s :: deepCollectParsed parsed
  | .null => []
  | .bool _ => []
  | .num _ => []

def deepCollectElems : List JVal → List String
  | [] => []
  | v :: vs => deepCollectText v ++ deepCollectElems vs

def deepCollectFields : List (String × JVal) → List String
  | [] => []
  | (_, v) :: kvs => deepCollectText v ++ deepCollectFields kvs

def deepCollectParsed : Option JVal → List String
  | none => []
  | some v => deepCollectText v

end

/-- `TEXT_COLUMNS_CANDIDATES`. -/
def TEXT_COLUMNS_CANDIDATES : List String := ["texte", "text", "objet", "description", "resume"]

/-- The full candidate field list `_should_tag_topage` walks. -/
def topageFields : List String :=
  TEXT_COLUMNS_CANDIDATES ++
    ["familleavis_lib", "typeavis_lib", "jugement", "modificationsgenerales", "divers"]

/-- The text collected from the fields present on the record, joined by
single spaces (`" ".join(text_parts)`). -/
def collectedText (record : List (String × JVal)) : String :=
  String.intercalate " " (topageFields.flatMap (fun f =>
    match recordGet record f with
    | some v => deepCollectText v
    | none => []))

/-- `_should_tag_topage`. -/
def shouldTagTopage (record : List (String × JVal)) (keywords : List String) : Bool :=
  if keywords.isEmpty then false
  else flagKeywords (collectedText record) keywords

/-- `DEFAULT_TOPAGE_KEYWORDS`. -/
def DEFAULT_TOPAGE_KEYWORDS : List String :=
  ["sauvegarde", "redressement judiciaire", "liquidation judiciaire", "radiation",
   "cloture pour insuffisance d" ++ apo ++ "actifs"]

/-- The unwrapping `_extract_records` performs on each element of a
`results` list: a dict's inner `record` dict if present, else its inner
`fields` dict if present, else the dict itself; non-dict elements are
dropped. -/
def unwrapResultItem (item : JVal) : Option JVal :=
  match item with
  | .obj fields =>
      match recordGet fields "record" with
      | some (.obj r) => some (.obj r)
      | _ =>
          match recordGet fields "fields" with
          | some (.obj fr) => some (.obj fr)
          | _ => some (.obj fields)
  | _ => none

/-- `_extract_records`: an empty payload yields nothing; a `results` list is
unwrapped element-wise (any `records` key is then ignored); otherwise a
`records` list is returned as-is; any other shape yields nothing. -/
def extractRecords (payload : List (String × JVal)) : List JVal :=
  if payload.isEmpty then []
  else
    match recordGet payload "results" with
    | some (.arr items) => items.filterMap unwrapResultItem
    | _ =>
        match recordGet payload "records" with
        | some (.arr items) => items
        | _ => []

/-- A doubly JSON-encoded sub-structure: the literal text of an object whose
`a` field holds `"x"`. -/
def jsonStrEx : String := "\x7b\"a\": \"x\"\x7d"

/-! ### Payload record extraction (claim C10) -/
/-- A payload carrying both a `results` list (one wrapped record and one
non-dict element) and a `records` list. -/
def payloadEx : List (String × JVal) :=
  [("results", JVal.arr [JVal.obj [("record", JVal.obj [("numeroannonce", JVal.num 1)])],
     JVal.num 7]),
   ("records", JVal.arr [JVal.obj [("numeroannonce", JVal.num 99)]])]

/-! ### Publication-date parsing (`_parse_day`)

`_parse_day` tries `strptime` with `"%Y-%m-%d"`, `"%d/%m/%Y"`, `"%Y%m%d"` in
that order and renders a hit as `"%Y%m%d"`.  `strptime` matches the regex
its format compiles to (`%Y` four digits, `%m` the alternation
`1[0-2]|0[1-9]|[1-9]`, `%d` the alternation `3[01]|[12]\d|0[1-9]|[1-9]`,
alternatives preferred in that order with backtracking), then fails on
leftover input and on a calendar-invalid date (no re-match is attempted
after such a failure). -/
def digitVal (c : Char) : Nat := c.toNat - 48

/-- `%Y`: exactly four digits. -/
def yearParse : List Char → Option (Nat × List Char)
  | a :: b :: c :: d :: rest =>
      if a.isDigit ∧ b.isDigit ∧ c.isDigit ∧ d.isDigit then
        some (1000 * digitVal a + 100 * digitVal b + 10 * digitVal c + digitVal d, rest)
      else none
  | _ => none

/-- `%m` candidates, in regex preference order. -/
def monthCands : List Char → List (Nat × List Char)
  | a :: b :: rest =>
      (if a = '1' ∧ (b = '0' ∨ b = '1' ∨ b = '2') then [(10 + digitVal b, rest)] else []) ++
      (if a = '0' ∧ '1' ≤ b ∧ b ≤ '9' then [(digitVal b, rest)] else []) ++
      (if '1' ≤ a ∧ a ≤ '9' then [(digitVal a, b :: rest)] else [])
  | [a] => if '1' ≤ a ∧ a ≤ '9' then [(digitVal a, [])] else []
  | [] => []

/-- `%d` candidates, in regex preference order. -/
def dayCands : List Char → List (Nat × List Char)
  | a :: b :: rest =>
      (if a = '3' ∧ (b = '0' ∨ b = '1') then [(30 + digitVal b, rest)] else []) ++
      (if (a = '1' ∨ a = '2') ∧ b.isDigit then [(10 * digitVal a + digitVal b, rest)] else []) ++
      (if a = '0' ∧ '1' ≤ b ∧ b ≤ '9' then [(digitVal b, rest)] else []) ++
      (if '1' ≤ a ∧ a ≤ '9' then [(digitVal a, b :: rest)] else [])
  | [a] => if '1' ≤ a ∧ a ≤ '9' then [(digitVal a, [])] else []
  | [] => []

def expectChar (c : Char) : List Char → Option (List Char)
  | x :: rest => if x = c then some rest else none
  | [] => none

/-- First regex match of `%Y-%m-%d` (leftover input allowed at this stage). -/
def parseYMDpat (s : List Char) : Option (Nat × Nat × Nat × List Char) :=
  (match yearParse s with
   | none => []
   | some (y, r1) =>
       match expectChar '-' r1 with
       | none => []
       | some r2 =>
           (monthCands r2).flatMap (fun mr =>
             match expectChar '-' mr.2 with
             | none => []
             | some r4 => (dayCands r4).map (fun (dr : Nat × List Char) => (y, mr.1, dr.1, dr.2)))).head?

/-- First regex match of `%d/%m/%Y`. -/
def parseDMYpat (s : List Char) : Option (Nat × Nat × Nat × List Char) :=
  ((dayCands s).flatMap (fun dr =>
    match expectChar '/' dr.2 with
    | none => []
    | some r2 =>
        (monthCands r2).flatMap (fun mr =>
          match expectChar '/' mr.2 with
          | none => []
          | some r4 =>
              match yearParse r4 with
              | some (y, r5) => [(y, mr.1, dr.1, r5)]
              | none => []))).head?

/-- First regex match of `%Y%m%d`. -/
def parseYMDcompactPat (s : List Char) : Option (Nat × Nat × Nat × List Char) :=
  (match yearParse s with
   | none => []
   | some (y, r1) =>
       (monthCands r1).flatMap (fun mr =>
         (dayCands mr.2).map (fun (dr : Nat × List Char) => (y, mr.1, dr.1, dr.2)))).head?

def isLeapYear (y : Nat) : Bool := (y % 4 == 0 && y % 100 != 0) || (y % 400 == 0)

def daysInMonth (y m : Nat) : Nat :=
  if m = 2 then (if isLeapYear y then 29 else 28)
  else if m = 4 ∨ m = 6 ∨ m = 9 ∨ m = 11 then 30
  else 31

/-- `datetime` range checks (`MINYEAR = 1`; month range is enforced by the
`%m` regex already; day must fit the month). -/
def validDate (y m d : Nat) : Bool := decide (1 ≤ y) && decide (d ≤ daysInMonth y m)

def pad2 (n : Nat) : String := if n < 10 then "0" ++ toString n else toString n

def pad4 (n : Nat) : String :=
  if n < 10 then "000" ++ toString n
  else if n < 100 then "00" ++ toString n
  else if n < 1000 then "0" ++ toString n
  else toString n

/-- `strftime("%Y%m%d")`. -/
def fmtCompact (y m d : Nat) : String := pad4 y ++ pad2 m ++ pad2 d

/-- Reject a match with leftover input ("unconverted data remains") or an
invalid calendar date, otherwise render it. -/
def checkPat : Option (Nat × Nat × Nat × List Char) → Option String
  | some (y, m, d, rest) =>
      if rest.isEmpty && validDate y m d then some (fmtCompact y m d) else none
  | none => none

/-- `_parse_day`. -/
def parseDay (value : String) : Option String :=
  match checkPat (parseYMDpat value.data) with
  | some r => some r
  | none =>
      match checkPat (parseDMYpat value.data) with
      | some r => some r
      | none => checkPat (parseYMDcompactPat value.data)

/-! ### The filter run (`_filter_records`, `_write_day_file`) -/
/-- The enrichment attributes of one SIREN
(`MATRICULE_PICRIS_CCPMA` / `CPCEA` / `AGRI`). -/
structure SirenInfo where
  ccpma : String
  cpcea : String
  agri : String
  deriving DecidableEq

/-- `record[key] = value` on a Python dict: replace in place when the key is
present, append otherwise. -/
def setField (r : List (String × JVal)) (key : String) (v : JVal) : List (String × JVal) :=
  if r.any (fun kv => kv.1 == key) then
    r.map (fun kv => if kv.1 == key then (kv.1, v) else kv)
  else r ++ [(key, v)]

/-- `for siren in matches: info = sirens_info.get(siren); if info: ...; break`:
the first matched SIREN that has an info entry. -/
def firstInfo (ms : List String) (infos : List (String × SirenInfo)) : Option SirenInfo :=
  match ms with
  | [] => none
  | s :: rest =>
      match (infos.find? (fun kv => kv.1 == s)).map (fun kv => kv.2) with
      | some i => some i
      | none => firstInfo rest infos

/-- Tag `topage_DDJC = "oui"` and copy the three matricules of the first
matched SIREN that has an entry.  (The written values are plain strings;
the parse annotation of emitted strings is irrelevant downstream, as
emitted records are never re-collected.) -/
def enrichRecord (record : List (String × JVal)) (ms : List String)
    (infos : List (String × SirenInfo)) : List (String × JVal) :=
  let r1 := setField record "topage_DDJC" (.str "oui" none)
  match firstInfo ms infos with
  | some i =>
      setField (setField (setField r1 "MATRICULE_PICRIS_CCPMA" (.str i.ccpma none))
        "MATRICULE_PICRIS_CPCEA" (.str i.cpcea none)) "MATRICULE_PICRIS_AGRI" (.str i.agri none)
  | none => r1

/-- One source day file: the 8-digit day derived from its filename stem
(`name_parts[0]` when that is an 8-digit number), and its parsed JSON lines
(the loader already dropped malformed lines). -/
structure InputFile where
  nameDay : Option String
  records : List (List (String × JVal))

/-- The filter run's state: the set of days having a
`{day}_bodacc_filtered.jsonl` file (the mutable `existing` set stays in
sync with the directory, as every written file's stem starts with its
8-digit day), and the files written by this run, in write order. -/
structure FilterSt where
  existing : List String
  outputs : List (String × List (List (String × JVal)))

/-- `_write_day_file`: skip when the target exists, else write the lines. -/
def writeDayFile (st : FilterSt) (day : String) (records : List (List (String × JVal))) :
    FilterSt :=
  if st.existing.contains day then st
  else { st with outputs := st.outputs ++ [(day, records)] }

/-- The per-file scan accumulator: `seen_per_day` (insertion-ordered set)
and `kept_per_day` (insertion-ordered buckets). -/
structure ScanAcc where
  seen : List String
  kept : List (String × List (List (String × JVal)))

def insertSeen (day : String) (seen : List String) : List String :=
  if seen.contains day then seen else seen ++ [day]

def addKept (day : String) (r : List (String × JVal))
    (kept : List (String × List (List (String × JVal)))) :
    List (String × List (List (String × JVal))) :=
  if kept.any (fun e => e.1 == day) then
    kept.map (fun e => if e.1 == day then (e.1, e.2 ++ [r]) else e)
  else kept ++ [(day, [r])]

/-- `kept_per_day.get(day_str, [])`. -/
def getKept (kept : List (String × List (List (String × JVal)))) (day : String) :
    List (List (String × JVal)) :=
  ((kept.find? (fun e => e.1 == day)).map (fun e => e.2)).getD []

/-- The publication day a record is attributed to, when any. -/
def recordDay (r : List (String × JVal)) : Option String :=
  match recordGet r "dateparution" with
  | some (.str dp _) => parseDay dp
  | _ => none

/-- The body of the per-record loop of `_filter_records`: skip records with
a non-string or unparseable `dateparution` (`recordDay record = none`) and
records of already-done days; mark the day seen; keep only records matching
a SIREN and tagged by the keyword test, enriched. -/
def scanRecord (sirens : List String) (keywords : List String)
    (infos : List (String × SirenInfo)) (existing : List String)
    (acc : ScanAcc) (record : List (String × JVal)) : ScanAcc :=
  match recordDay record with
  | none => acc
  | some day =>
      if existing.contains day then acc
      else
        let acc1 : ScanAcc := { acc with seen := insertSeen day acc.seen }
        let ms := matchedSirens record sirens
        if ms.isEmpty then acc1
        else if !(shouldTagTopage record keywords) then acc1
        else { acc1 with kept := addKept day (enrichRecord record ms infos) acc1.kept }

/-- The scan of one input file (`seen_per_day`/`kept_per_day` start empty;
`existing` is not modified during the scan). -/
def scanFile (sirens keywords : List String) (infos : List (String × SirenInfo))
    (existing : List String) (file : InputFile) : ScanAcc :=
  file.records.foldl (scanRecord sirens keywords infos existing) { seen := [], kept := [] }

def sortedInsertStr (s : String) : List String → List String
  | [] => [s]
  | t :: ts => if strLtB t s then t :: sortedInsertStr s ts else s :: t :: ts

/-- `sorted(seen_per_day)`. -/
def sortStrs : List String → List String
  | [] => []
  | s :: ss => sortedInsertStr s (sortStrs ss)

/-- `for day_str in sorted(seen_per_day): _write_day_file(...);
existing.add(day_str)`. -/
def writeStep (kept : List (String × List (List (String × JVal))))
    (st2 : FilterSt) (day : String) : FilterSt :=
  let st3 := writeDayFile st2 day (getKept kept day)
  { st3 with existing := insertSeen day st3.existing }

/-- The per-file body of `_filter_records`: skip the whole file when its
nominal (filename) day is already done; otherwise scan its records and
write one file per seen day, in ascending day order. -/
def processFile (sirens keywords : List String) (infos : List (String × SirenInfo))
    (st : FilterSt) (file : InputFile) : FilterSt :=
  let skip := match file.nameDay with
    | some d => st.existing.contains d
    | none => false
  if skip then st
  else
    let acc := scanFile sirens keywords infos st.existing file
    (sortStrs acc.seen).foldl (writeStep acc.kept) st

/-- `_filter_records` over the discovered input files, starting from the
days `_existing_days` found on disk. -/
def filterRecordsRun (sirens keywords : List String) (infos : List (String × SirenInfo))
    (existing0 : List String) (files : List InputFile) : FilterSt :=
  files.foldl (processFile sirens keywords infos) { existing := existing0, outputs := [] }

/-- An enrichment registry with one SIREN. -/
def infosEx : List (String × SirenInfo) := [("123456789", ⟨"m1", "m2", "m3"⟩)]

/-- A record published on 2024-01-06 that matches the SIREN and the keyword
vocabulary. -/
def recJan6 : List (String × JVal) :=
  [("dateparution", JVal.str "2024-01-06" none),
   ("registre", JVal.str "123456789" (some (JVal.num 123456789))),
   ("texte", JVal.str "liquidation judiciaire" none)]

/-- A source file nominally for 2024-01-05 that contains the 2024-01-06
record. -/
def fileEx6 : InputFile := { nameDay := some "20240105", records := [recJan6] }

/-- A record published on 2024-01-07 with no `registre`: its day is seen but
nothing of it is kept. -/
def recJan7 : List (String × JVal) := [("dateparution", JVal.str "2024-01-07" none)]

/-- One source file contributing to two publication days, the second with
zero matching records. -/
def fileEx7 : InputFile := { nameDay := some "20240106", records := [recJan6, recJan7] }

def emptyFilterSt : FilterSt := { existing := [], outputs := [] }

/-! ### General lemmas about the fetch loop -/
theorem fetchGo_of_retries_exhausted (cfg : FetchCfg) (responses : List ApiResponse)
    (attempt : Nat) (st : FetchState) (h : cfg.maxRetries ≤ attempt) :
    fetchGo cfg responses attempt st = (.abandoned, st) := by
  cases responses with
  | nil => simp [fetchGo, h]
  | cons r rest => cases r <;> simp [fetchGo, h]

theorem fetchGo_requests_mono (cfg : FetchCfg) :
    ∀ (responses : List ApiResponse) (attempt : Nat) (st : FetchState),
      ∃ t, (fetchGo cfg responses attempt st).2.requests = st.requests ++ t := by
  intro responses
  induction responses with
  | nil =>
      intro attempt st
      by_cases h : cfg.maxRetries ≤ attempt <;> simp [fetchGo, h]
  | cons r rest ih =>
      intro attempt st
      by_cases h : cfg.maxRetries ≤ attempt
      · rw [fetchGo_of_retries_exhausted cfg _ _ _ h]; exact ⟨[], by simp⟩
      · cases r with
        | rateLimited =>
            simp only [fetchGo, h, if_false]
            obtain ⟨t, ht⟩ := ih (attempt + 1)
              { st with
                  requests := st.requests ++ [reqOf cfg st]
                  sleeps := st.sleeps ++ [cfg.timeout429] }
            exact ⟨[reqOf cfg st] ++ t, by simpa using ht⟩
        | failure =>
            simp only [fetchGo, h, if_false]
            obtain ⟨t, ht⟩ := ih (attempt + 1)
              { st with
                  requests := st.requests ++ [reqOf cfg st]
                  sleeps := st.sleeps ++ [cfg.backoffBase * 2 ^ attempt] }
            exact ⟨[reqOf cfg st] ++ t, by simpa using ht⟩
        | success records =>
            simp only [fetchGo, h, if_false]
            by_cases hempty : records.isEmpty
            · simp [hempty]
            · simp only [hempty, if_false]
              by_cases hshort : records.length < cfg.perPage
              · simp [hshort, pageStagedState]
              · simp only [hshort, if_false]
                obtain ⟨t, ht⟩ := ih 0 (pageStagedState cfg st records)
                exact ⟨[reqOf cfg st] ++ t, by simpa [pageStagedState] using ht⟩

/-- Whenever a response is actually consumed (the retry budget is not yet
exhausted), the request that provoked it is the one built from the current
cursor, and it is the next entry of the request log. -/
theorem fetchGo_requests_head (cfg : FetchCfg) (r : ApiResponse) (rest : List ApiResponse)
    (attempt : Nat) (st : FetchState) (h : attempt < cfg.maxRetries) :
    ∃ t, (fetchGo cfg (r :: rest) attempt st).2.requests =
      st.requests ++ reqOf cfg st :: t := by
  have h' : ¬ cfg.maxRetries ≤ attempt := Nat.not_le.mpr h
  cases r with
  | rateLimited =>
      simp only [fetchGo, h', if_false]
      obtain ⟨t, ht⟩ := fetchGo_requests_mono cfg rest (attempt + 1)
        { st with
            requests := st.requests ++ [reqOf cfg st]
            sleeps := st.sleeps ++ [cfg.timeout429] }
      exact ⟨t, by simpa using ht⟩
  | failure =>
      simp only [fetchGo, h', if_false]
      obtain ⟨t, ht⟩ := fetchGo_requests_mono cfg rest (attempt + 1)
        { st with
            requests := st.requests ++ [reqOf cfg st]
            sleeps := st.sleeps ++ [cfg.backoffBase * 2 ^ attempt] }
      exact ⟨t, by simpa using ht⟩
  | success records =>
      simp only [fetchGo, h', if_false]
      by_cases hempty : records.isEmpty
      · exact ⟨[], by simp [hempty]⟩
      · simp only [hempty, if_false]
        by_cases hshort : records.length < cfg.perPage
        · exact ⟨[], by simp [hshort, pageStagedState]⟩
        · simp only [hshort, if_false]
          obtain ⟨t, ht⟩ := fetchGo_requests_mono cfg rest 0 (pageStagedState cfg st records)
          exact ⟨t, by simpa [pageStagedState] using ht⟩

theorem le_updateNumero (last : Int) (records : List FetchRec) :
    last ≤ updateNumero last records := by
  unfold updateNumero
  cases h : (records.filterMap FetchRec.numero).max? with
  | none => simp [h]
  | some m => simp [h]

theorem fetchGo_lastNumero_mono (cfg : FetchCfg) :
    ∀ (responses : List ApiResponse) (attempt : Nat) (st : FetchState),
      st.lastNumero ≤ (fetchGo cfg responses attempt st).2.lastNumero := by
  intro responses
  induction responses with
  | nil =>
      intro attempt st
      by_cases h : cfg.maxRetries ≤ attempt <;> simp [fetchGo, h]
  | cons r rest ih =>
      intro attempt st
      by_cases h : cfg.maxRetries ≤ attempt
      · rw [fetchGo_of_retries_exhausted cfg _ _ _ h]
      · cases r with
        | rateLimited =>
            simp only [fetchGo, h, if_false]
            exact ih (attempt + 1) _
        | failure =>
            simp only [fetchGo, h, if_false]
            exact ih (attempt + 1) _
        | success records =>
            simp only [fetchGo, h, if_false]
            by_cases hempty : records.isEmpty
            · simp [hempty]
            · simp only [hempty, if_false]
              by_cases hshort : records.length < cfg.perPage
              · simpa [hshort, pageStagedState] using le_updateNumero st.lastNumero records
              · simp only [hshort, if_false]
                refine le_trans ?_ (ih 0 (pageStagedState cfg st records))
                simpa [pageStagedState] using le_updateNumero st.lastNumero records

/-- Consecutive 429 responses keep consuming retry attempts: as soon as the
running attempt counter reaches `max_retries`, the `for`-loop's `else` clause
fires and the whole (day, category) fetch is abandoned. -/
theorem fetchGo_replicate_rateLimited (cfg : FetchCfg) :
    ∀ (k attempt : Nat) (rest : List ApiResponse) (st : FetchState),
      cfg.maxRetries ≤ attempt + k →
      (fetchGo cfg (List.replicate k ApiResponse.rateLimited ++ rest) attempt st).1 =
        FetchOutcome.abandoned := by
  intro k
  induction k with
  | zero =>
      intro attempt rest st h
      simp only [List.replicate, List.nil_append]
      rw [fetchGo_of_retries_exhausted cfg _ _ _ (by omega)]
  | succ k ih =>
      intro attempt rest st h
      by_cases h2 : cfg.maxRetries ≤ attempt
      · rw [fetchGo_of_retries_exhausted cfg _ _ _ h2]
      · simp only [List.replicate_succ, List.cons_append, fetchGo, h2, if_false]
        exact ih (attempt + 1) rest _ (by omega)

/-- Claim C1 counterexample: with `max_retries = 2`, two consecutive 429
responses already exhaust the retry budget — the `continue` after the fixed
429 sleep advances the `for attempt in range(max_retries)` counter — so the
(day, category) is abandoned (no fragment ever staged) even though the very
next response would have been a successful page.  This contradicts the claim
that a 429 never decreases the number of remaining retry attempts and that a
run of consecutive 429s never abandons the pair. -/
theorem C1_counterexample :
    (fetchDay cfgEx [.rateLimited, .rateLimited, .success [⟨some 1⟩]]).1 =
      FetchOutcome.abandoned ∧
    (fetchDay cfgEx [.rateLimited, .rateLimited, .success [⟨some 1⟩]]).2.staged = [] ∧
    (fetchDay cfgEx [.rateLimited, .rateLimited, .success [⟨some 1⟩]]).2.sleeps = [300, 300] := by
  decide

/-- Claim C1 (amended): a rate-limited (429) response causes a fixed sleep of
`too_many_requests_timeout_sec` followed by a repeat of the same page request
(the cursor, hence the request parameters, are unchanged, so the request log
shows the identical request twice in a row) — but it **does** consume one
attempt of the shared `max_retries` budget, exactly like any other transient
failure (only the sleep differs: fixed instead of exponential), so
`max_retries` consecutive 429 responses abandon the (day, category). -/
theorem C1_rate_limit_behaviour (cfg : FetchCfg) (rest : List ApiResponse) (attempt : Nat)
    (st : FetchState) (h : attempt < cfg.maxRetries) :
    fetchGo cfg (ApiResponse.rateLimited :: rest) attempt st =
      fetchGo cfg rest (attempt + 1)
        { st with
            requests := st.requests ++ [reqOf cfg st]
            sleeps := st.sleeps ++ [cfg.timeout429] } ∧
    (∀ k, cfg.maxRetries ≤ attempt + k →
      (fetchGo cfg (List.replicate k ApiResponse.rateLimited ++ rest) attempt st).1 =
        FetchOutcome.abandoned) ∧
    (∀ r' rest', rest = r' :: rest' → attempt + 1 < cfg.maxRetries →
      ∃ t, (fetchGo cfg (ApiResponse.rateLimited :: rest) attempt st).2.requests =
        st.requests ++ reqOf cfg st :: reqOf cfg st :: t) := by
  have h' : ¬ cfg.maxRetries ≤ attempt := Nat.not_le.mpr h
  refine ⟨by simp [fetchGo, h'],
    fun k hk => fetchGo_replicate_rateLimited cfg k attempt rest st hk, ?_⟩
  rintro r' rest' rfl h2
  simp only [fetchGo, h', if_false]
  obtain ⟨t, ht⟩ := fetchGo_requests_head cfg r' rest' (attempt + 1)
    { st with
        requests := st.requests ++ [reqOf cfg st]
        sleeps := st.sleeps ++ [cfg.timeout429] } h2
  refine ⟨t, ?_⟩
  rw [ht]
  simp [reqOf]

theorem C1_rate_limit_behaviour_witness :
    0 < cfgEx.maxRetries ∧
    (fetchGo cfgEx (List.replicate 2 ApiResponse.rateLimited ++ []) 0 initFetchState).1 =
      FetchOutcome.abandoned :=
  ⟨by decide, (C1_rate_limit_behaviour cfgEx [] 0 initFetchState (by decide)).2.1 2 (by decide)⟩

/-- Claim C2: on a successful page (within the retry budget): a page with zero
records ends pagination at once, staging nothing; a non-empty page shorter
than `per_page` is staged as a fragment and then ends pagination; a page of
exactly `per_page` records is staged and the loop goes on to issue a further
page request (with a fresh retry counter).  In particular a first call
returning zero records yields zero fragments. -/
theorem C2_pagination (cfg : FetchCfg) (rest : List ApiResponse) (attempt : Nat)
    (st : FetchState) (records : List FetchRec) (h : attempt < cfg.maxRetries) :
    (records = [] →
      fetchGo cfg (ApiResponse.success records :: rest) attempt st =
        (FetchOutcome.completed, { st with requests := st.requests ++ [reqOf cfg st] })) ∧
    (records ≠ [] → records.length < cfg.perPage →
      fetchGo cfg (ApiResponse.success records :: rest) attempt st =
        (FetchOutcome.completed, pageStagedState cfg st records)) ∧
    (records ≠ [] → records.length = cfg.perPage →
      fetchGo cfg (ApiResponse.success records :: rest) attempt st =
        fetchGo cfg rest 0 (pageStagedState cfg st records) ∧
      (∀ r' rest', rest = r' :: rest' →
        ∃ t, (fetchGo cfg (ApiResponse.success records :: rest) attempt st).2.requests =
          (pageStagedState cfg st records).requests ++
            reqOf cfg (pageStagedState cfg st records) :: t)) ∧
    (∀ c : FetchCfg, (fetchDay c [ApiResponse.success []]).2.staged = []) := by
  have h' : ¬ cfg.maxRetries ≤ attempt := Nat.not_le.mpr h
  refine ⟨?_, ?_, ?_, ?_⟩
  · rintro rfl
    simp [fetchGo, h']
  · intro hne hlt
    have hempty : records.isEmpty = false := by
      cases records with
      | nil => exact absurd rfl hne
      | cons a l => rfl
    simp [fetchGo, h', hempty, hlt]
  · intro hne hlen
    have hempty : records.isEmpty = false := by
      cases records with
      | nil => exact absurd rfl hne
      | cons a l => rfl
    have hshort : ¬ records.length < cfg.perPage := by omega
    have heq : fetchGo cfg (ApiResponse.success records :: rest) attempt st =
        fetchGo cfg rest 0 (pageStagedState cfg st records) := by
      simp [fetchGo, h', hempty, hshort]
    refine ⟨heq, ?_⟩
    rintro r' rest' rfl
    rw [heq]
    exact fetchGo_requests_head cfg r' rest' 0 (pageStagedState cfg st records)
      (Nat.lt_of_le_of_lt (Nat.zero_le _) h)
  · intro c
    by_cases hc : c.maxRetries ≤ 0
    · simp [fetchDay, fetchGo, hc, initFetchState]
    · simp [fetchDay, fetchGo, hc, initFetchState]

theorem C2_pagination_witness :
    0 < cfgEx.maxRetries ∧
    fetchGo cfgEx [ApiResponse.success [⟨some 7⟩]] 0 initFetchState =
      (FetchOutcome.completed, pageStagedState cfgEx initFetchState [⟨some 7⟩]) :=
  ⟨by decide,
    (C2_pagination cfgEx [] 0 initFetchState [⟨some 7⟩] (by decide)).2.1 (by decide) (by decide)⟩

/-- Claim C3: the cursor `last_numero` starts at 0; every issued page request
carries the filter `publicationavis = '<cat>' AND numeroannonce > <cursor>`
with ascending ordering by `numeroannonce` and limit `per_page`, built from
the cursor current at the time of the request; after a staged page the cursor
becomes `max(max(observed sequence numbers), cursor)`; it never decreases at
any point of the pass. -/
theorem C3_cursor (cfg : FetchCfg) :
    initFetchState.lastNumero = 0 ∧
    (∀ c : Int,
      (mkParams cfg.dateStr cfg.pub cfg.perPage c).whereClause =
        "publicationavis = " ++ apo ++ cfg.pub ++ apo ++ " AND numeroannonce > " ++ toString c ∧
      (mkParams cfg.dateStr cfg.pub cfg.perPage c).orderBy = "numeroannonce" ∧
      (mkParams cfg.dateStr cfg.pub cfg.perPage c).limit = cfg.perPage) ∧
    (∀ (r : ApiResponse) (rest : List ApiResponse) (attempt : Nat) (st : FetchState),
      attempt < cfg.maxRetries →
      ∃ t, (fetchGo cfg (r :: rest) attempt st).2.requests =
        st.requests ++ reqOf cfg st :: t) ∧
    (∀ (st : FetchState) (records : List FetchRec),
      (pageStagedState cfg st records).lastNumero = updateNumero st.lastNumero records) ∧
    (∀ (last : Int) (records : List FetchRec) (m : Int),
      (records.filterMap FetchRec.numero).max? = some m →
      updateNumero last records = max m last) ∧
    (∀ (last : Int) (records : List FetchRec), last ≤ updateNumero last records) ∧
    (∀ (responses : List ApiResponse) (attempt : Nat) (st : FetchState),
      st.lastNumero ≤ (fetchGo cfg responses attempt st).2.lastNumero) := by
  refine ⟨rfl, fun c => ⟨rfl, rfl, rfl⟩,
    fun r rest attempt st h => fetchGo_requests_head cfg r rest attempt st h,
    fun st records => rfl,
    fun last records m hm => by simp [updateNumero, hm],
    le_updateNumero,
    fetchGo_lastNumero_mono cfg⟩

theorem C3_cursor_witness :
    0 < cfgEx.maxRetries ∧
    ∃ t, (fetchGo cfgEx [ApiResponse.success []] 0 initFetchState).2.requests =
      initFetchState.requests ++ reqOf cfgEx initFetchState :: t :=
  ⟨by decide, (C3_cursor cfgEx).2.2.1 (ApiResponse.success []) [] 0 initFetchState (by decide)⟩

/-! ### Filename order versus (category, page) order -/
theorem pad3_digits : ∀ n, n < 1000 →
    (pad3 n).data =
      [Nat.digitChar (n / 100), Nat.digitChar (n / 10 % 10), Nat.digitChar (n % 10)] := by
  decide

theorem digitChar_lt_iff : ∀ a, a < 10 → ∀ b, b < 10 →
    (Nat.digitChar a < Nat.digitChar b ↔ a < b) := by decide

theorem charList_cons_lt_cons (c : Char) {a b : List Char} (h : a < b) :
    c :: a < c :: b := List.Lex.cons h

theorem charList_cons_lt_cons_of_lt {c d : Char} (hcd : c < d) (a b : List Char) :
    c :: a < d :: b := List.Lex.rel hcd

theorem charList_lt_append_left (p : List Char) {a b : List Char} (h : a < b) :
    p ++ a < p ++ b := by
  induction p with
  | nil => simpa
  | cons c q ih => exact charList_cons_lt_cons c ih

theorem str_append_lt_left (p : String) {a b : String} (h : a < b) : p ++ a < p ++ b := by
  rw [String.lt_iff_toList_lt] at h ⊢
  show (p ++ a).data < (p ++ b).data
  rw [String.data_append, String.data_append]
  exact charList_lt_append_left p.data h

/-- Fixed-width zero-padded decimal renderings compare like the numbers they
render, whatever common suffix follows. -/
theorem pad3_append_lt {i j : Nat} (hi : i < 1000) (hj : j < 1000) (hij : i < j)
    (s : List Char) : (pad3 i).data ++ s < (pad3 j).data ++ s := by
  rw [pad3_digits i hi, pad3_digits j hj]
  have h1 : i / 100 < 10 := by omega
  have h2 : j / 100 < 10 := by omega
  have h3 : i / 10 % 10 < 10 := by omega
  have h4 : j / 10 % 10 < 10 := by omega
  have h5 : i % 10 < 10 := by omega
  have h6 : j % 10 < 10 := by omega
  show List.Lex (· < ·) _ _
  simp only [List.cons_append, List.nil_append]
  rcases Nat.lt_trichotomy (i / 100) (j / 100) with hc | hc | hc
  · exact List.Lex.rel ((digitChar_lt_iff _ h1 _ h2).mpr hc)
  · rw [show Nat.digitChar (i / 100) = Nat.digitChar (j / 100) from by rw [hc]]
    apply List.Lex.cons
    rcases Nat.lt_trichotomy (i / 10 % 10) (j / 10 % 10) with hd | hd | hd
    · exact List.Lex.rel ((digitChar_lt_iff _ h3 _ h4).mpr hd)
    · rw [show Nat.digitChar (i / 10 % 10) = Nat.digitChar (j / 10 % 10) from by rw [hd]]
      apply List.Lex.cons
      have he : i % 10 < j % 10 := by omega
      exact List.Lex.rel ((digitChar_lt_iff _ h5 _ h6).mpr he)
    · exact absurd hij (by omega)
  · exact absurd hij (by omega)

/-- The names of two same-day fragments of the same category compare by page
index (for indices below 1000, where `:03d` renders a fixed width). -/
theorem fragName_lt_of_page_lt {f g : Frag} (hday : f.day = g.day) (hcat : f.cat = g.cat)
    (hfp : f.pageIdx < 1000) (hgp : g.pageIdx < 1000) (hpg : f.pageIdx < g.pageIdx) :
    fragName f < fragName g := by
  have hf2 : fragName f =
      (g.day ++ "_bodacc_update_part_" ++ g.cat ++ "_") ++ (pad3 f.pageIdx ++ ".jsonl") := by
    simp [fragName, String.append_assoc, hday, hcat]
  have hg2 : fragName g =
      (g.day ++ "_bodacc_update_part_" ++ g.cat ++ "_") ++ (pad3 g.pageIdx ++ ".jsonl") := by
    simp [fragName, String.append_assoc]
  rw [hf2, hg2]
  apply str_append_lt_left
  rw [String.lt_iff_toList_lt]
  show (_ : String).data < (_ : String).data
  rw [String.data_append, String.data_append]
  exact pad3_append_lt hfp hgp hpg _

/-- The names of two same-day fragments of single-character categories
compare by category character. -/
theorem fragName_lt_of_cat_lt {f g : Frag} (hday : f.day = g.day)
    {c d : Char} (hc : f.cat.data = [c]) (hd : g.cat.data = [d]) (hcd : c < d) :
    fragName f < fragName g := by
  have hf2 : fragName f =
      (g.day ++ "_bodacc_update_part_") ++ (f.cat ++ ("_" ++ (pad3 f.pageIdx ++ ".jsonl"))) := by
    simp [fragName, String.append_assoc, hday]
  have hg2 : fragName g =
      (g.day ++ "_bodacc_update_part_") ++ (g.cat ++ ("_" ++ (pad3 g.pageIdx ++ ".jsonl"))) := by
    simp [fragName, String.append_assoc]
  rw [hf2, hg2]
  apply str_append_lt_left
  rw [String.lt_iff_toList_lt]
  show (_ : String).data < (_ : String).data
  simp only [String.data_append, hc, hd]
  exact charList_cons_lt_cons_of_lt hcd _ _

theorem fragName_lt_of_keyLt {f g : Frag} (hday : f.day = g.day)
    (hf : f.cat ∈ PUBLICATION_TYPES) (hg : g.cat ∈ PUBLICATION_TYPES)
    (hfp : f.pageIdx < 1000) (hgp : g.pageIdx < 1000)
    (hk : fragKeyLt f g) : fragName f < fragName g := by
  rcases hk with hlt | ⟨hcat, hpg⟩
  · simp only [PUBLICATION_TYPES, List.mem_cons, List.not_mem_nil, or_false] at hf hg
    rcases hf with hf | hf | hf <;> rcases hg with hg | hg | hg <;>
      rw [hf, hg] at hlt <;>
      first
        | exact absurd hlt (by decide)
        | exact fragName_lt_of_cat_lt hday (by rw [hf]) (by rw [hg]) (by decide)
  · exact fragName_lt_of_page_lt hday hcat hfp hgp hpg

theorem charListLt_iff : ∀ (as bs : List Char), charListLt as bs = true ↔ as < bs := by
  intro as
  induction as with
  | nil =>
      intro bs
      cases bs with
      | nil =>
          exact iff_of_false (by simp [charListLt]) (List.Lex.not_nil_right _ _)
      | cons b bs =>
          exact iff_of_true (by simp [charListLt]) List.Lex.nil
  | cons a as ih =>
      intro bs
      cases bs with
      | nil =>
          exact iff_of_false (by simp [charListLt]) (List.Lex.not_nil_right _ _)
      | cons b bs =>
          unfold charListLt
          by_cases hab : a < b
          · exact iff_of_true (by simp [hab]) (List.Lex.rel hab)
          · simp only [hab, if_false]
            by_cases hba : b < a
            · refine iff_of_false (by simp [hba]) ?_
              intro h
              cases h with
              | rel h' => exact hab h'
              | cons h' => exact lt_irrefl a hba
            · have hab2 : a = b := le_antisymm (not_lt.mp hba) (not_lt.mp hab)
              subst hab2
              simp only [hba, if_false]
              rw [ih bs]
              constructor
              · exact fun h => List.Lex.cons h
              · intro h
                cases h with
                | rel h' => exact absurd h' hab
                | cons h' => exact h'

theorem strLtB_iff (s t : String) : strLtB s t = true ↔ s < t := by
  rw [strLtB, charListLt_iff]
  exact Iff.symm String.lt_iff_toList_lt

theorem strLtB_eq_false_iff (s t : String) : strLtB s t = false ↔ ¬ s < t := by
  rw [← strLtB_iff]
  cases strLtB s t <;> simp

theorem sortFrags_eq_self : ∀ (l : List Frag),
    l.Chain' (fun a b => fragName a ≤ fragName b) → sortFrags l = l := by
  intro l
  induction l with
  | nil => intro _; rfl
  | cons f l ih =>
      intro h
      simp only [sortFrags, ih h.tail]
      cases l with
      | nil => rfl
      | cons g l' =>
          have hfg : fragName f ≤ fragName g := (List.chain'_cons.mp h).1
          have hlt : strLtB (fragName g) (fragName f) = false :=
            (strLtB_eq_false_iff _ _).mpr (not_lt.mpr hfg)
          simp [insertFrag, hlt]

theorem chain'_fragNames (day : String) : ∀ (l : List Frag),
    (∀ f ∈ l, f.day = day) → (∀ f ∈ l, f.cat ∈ PUBLICATION_TYPES) →
    (∀ f ∈ l, f.pageIdx < 1000) → l.Chain' fragKeyLt →
    l.Chain' (fun a b => fragName a ≤ fragName b) := by
  intro l
  induction l with
  | nil => intro _ _ _ _; exact List.chain'_nil
  | cons f l ih =>
      intro hday hcats hpages h
      cases l with
      | nil => exact List.chain'_singleton f
      | cons g l' =>
          rw [List.chain'_cons] at h ⊢
          refine ⟨?_, ih (fun x hx => hday x (List.mem_cons_of_mem f hx))
            (fun x hx => hcats x (List.mem_cons_of_mem f hx))
            (fun x hx => hpages x (List.mem_cons_of_mem f hx)) h.2⟩
          have hdayf : f.day = day := hday f (List.mem_cons_self f _)
          have hdayg : g.day = day := hday g (List.mem_cons_of_mem f (List.mem_cons_self g _))
          exact le_of_lt (fragName_lt_of_keyLt (hdayf.trans hdayg.symm)
            (hcats f (List.mem_cons_self f _))
            (hcats g (List.mem_cons_of_mem f (List.mem_cons_self g _)))
            (hpages f (List.mem_cons_self f _))
            (hpages g (List.mem_cons_of_mem f (List.mem_cons_self g _))) h.1)

theorem mem_dayPartsOf {fs : FS} {day : String} {f : Frag} (h : f ∈ dayPartsOf fs day) :
    f.day = day := by
  have := (List.mem_filter.mp h).2
  exact eq_of_beq this

/-- Claim C4: a day whose artifact already exists is skipped entirely — the
filesystem is untouched (no cleanup, no staging, no merge, artifact
unchanged) and no network request is issued; only when the artifact is
absent does the loop body run `_cleanup_day_parts`, then `_fetch_day` for
"A", "B", "C" in that fixed order, then `_merge_day_parts` once. -/
theorem C4_day_idempotency (d : DayCfg) (env : String → List ApiResponse) (fs : FS) :
    (hasArtifact fs d.dayKey = true → processDay d env fs = (fs, [])) ∧
    (hasArtifact fs d.dayKey = false →
      processDay d env fs =
        (mergeDayParts
          (stageFetch (catCfg d "C") (env "C") d.dayKey
            (stageFetch (catCfg d "B") (env "B") d.dayKey
              (stageFetch (catCfg d "A") (env "A") d.dayKey
                (cleanupDayParts fs d.dayKey)).1).1).1 d.dayKey,
         (stageFetch (catCfg d "A") (env "A") d.dayKey (cleanupDayParts fs d.dayKey)).2 ++
         (stageFetch (catCfg d "B") (env "B") d.dayKey
           (stageFetch (catCfg d "A") (env "A") d.dayKey (cleanupDayParts fs d.dayKey)).1).2 ++
         (stageFetch (catCfg d "C") (env "C") d.dayKey
           (stageFetch (catCfg d "B") (env "B") d.dayKey
             (stageFetch (catCfg d "A") (env "A") d.dayKey
               (cleanupDayParts fs d.dayKey)).1).1).2)) := by
  constructor
  · intro h
    simp [processDay, h]
  · intro h
    simp [processDay, h, PUBLICATION_TYPES, List.foldl_cons, List.foldl_nil]

theorem C4_day_idempotency_witness :
    hasArtifact fsEx dayCfgEx.dayKey = true ∧
    processDay dayCfgEx (fun _ => []) fsEx = (fsEx, []) :=
  ⟨by decide, (C4_day_idempotency dayCfgEx (fun _ => []) fsEx).1 (by decide)⟩

/-- Claim C5: `_merge_day_parts` leaves exactly one artifact for the day:
when fragments exist (listed in the staging discipline's (category, page)
order, categories among `("A","B","C")`, page indices rendered fixed-width),
its content is their concatenation in that order, and all consumed fragment
files are deleted; when no fragment exists and no artifact is present, an
empty artifact is created with the fragment area untouched. -/
theorem C5_merge_day (fs : FS) (day : String)
    (hcats : ∀ f ∈ dayPartsOf fs day, f.cat ∈ PUBLICATION_TYPES)
    (hpages : ∀ f ∈ dayPartsOf fs day, f.pageIdx < 1000)
    (hord : (dayPartsOf fs day).Chain' fragKeyLt) :
    (dayPartsOf fs day ≠ [] →
      getArtifact (mergeDayParts fs day) day =
        some ((dayPartsOf fs day).flatMap Frag.content) ∧
      (mergeDayParts fs day).artifacts.countP (fun a => a.1 == day) = 1 ∧
      (mergeDayParts fs day).frags = fs.frags.filter (fun f => !(f.day == day))) ∧
    (dayPartsOf fs day = [] → hasArtifact fs day = false →
      getArtifact (mergeDayParts fs day) day = some [] ∧
      (mergeDayParts fs day).artifacts.countP (fun a => a.1 == day) = 1 ∧
      (mergeDayParts fs day).frags = fs.frags) := by
  have hsort : sortFrags (dayPartsOf fs day) = dayPartsOf fs day :=
    sortFrags_eq_self _ (chain'_fragNames day _ (fun f hf => mem_dayPartsOf hf) hcats hpages hord)
  constructor
  · intro hne
    have hne2 : (dayPartsOf fs day).isEmpty = false := by
      cases h : dayPartsOf fs day with
      | nil => exact absurd h hne
      | cons a l => rfl
    have hmerge : mergeDayParts fs day =
        { frags := fs.frags.filter (fun f => !(f.day == day))
          artifacts := fs.artifacts.filter (fun a => !(a.1 == day)) ++
            [(day, (dayPartsOf fs day).flatMap Frag.content)] } := by
      simp only [mergeDayParts, hsort, hne2, Bool.false_eq_true, if_false]
    have hfindnone : (fs.artifacts.filter (fun a => !(a.1 == day))).find?
        (fun a => a.1 == day) = none := by
      refine List.find?_eq_none.mpr (fun x hx => ?_)
      have := (List.mem_filter.mp hx).2
      simpa using this
    refine ⟨?_, ?_, ?_⟩
    · rw [hmerge]
      unfold getArtifact
      simp only [List.find?_append, hfindnone, Option.none_or]
      simp [List.find?]
    · rw [hmerge]
      have hcount : (fs.artifacts.filter (fun a => !(a.1 == day))).countP
          (fun a => a.1 == day) = 0 := by
        refine List.countP_eq_zero.mpr (fun x hx => ?_)
        have := (List.mem_filter.mp hx).2
        simpa using this
      simp [List.countP_append, hcount]
    · rw [hmerge]
  · intro hemp hart
    have hmerge : mergeDayParts fs day =
        { fs with artifacts := fs.artifacts ++ [(day, [])] } := by
      simp only [mergeDayParts, hemp, sortFrags, List.isEmpty_nil, if_true, hart,
        Bool.false_eq_true, if_false]
    have hall : ∀ x ∈ fs.artifacts, ¬ (x.1 == day) = true := by
      intro x hx
      have := List.any_eq_false.mp hart x hx
      simpa using this
    refine ⟨?_, ?_, ?_⟩
    · rw [hmerge]
      unfold getArtifact
      simp only [List.find?_append, List.find?_eq_none.mpr hall, Option.none_or]
      simp [List.find?]
    · rw [hmerge]
      have hcount : fs.artifacts.countP (fun a => a.1 == day) = 0 :=
        List.countP_eq_zero.mpr hall
      simp [List.countP_append, hcount]
    · rw [hmerge]

theorem C5_merge_day_witness :
    (∀ f ∈ dayPartsOf fsEx5 "20240103", f.cat ∈ PUBLICATION_TYPES) ∧
    (∀ f ∈ dayPartsOf fsEx5 "20240103", f.pageIdx < 1000) ∧
    (dayPartsOf fsEx5 "20240103").Chain' fragKeyLt ∧
    getArtifact (mergeDayParts fsEx5 "20240103") "20240103" =
      some [⟨some 3⟩, ⟨some 5⟩] := by
  have hchain : (dayPartsOf fsEx5 "20240103").Chain' fragKeyLt :=
    List.chain'_cons.mpr ⟨Or.inr ⟨rfl, by decide⟩, List.chain'_singleton _⟩
  exact ⟨by decide, by decide, hchain,
    ((C5_merge_day fsEx5 "20240103" (by decide) (by decide) hchain).1
      (by decide)).1.trans (by decide)⟩

/-! ### Identifier matching (claim C7) -/
theorem cleanRegistre_mem_iff (l : List JVal) (d : String) :
    d ∈ cleanRegistreValues l ↔
      (∃ s p, JVal.str s p ∈ l ∧ stripNonDigits s = d) ∧ d ≠ "" := by
  rw [cleanRegistreValues, List.mem_filterMap]
  constructor
  · rintro ⟨a, ha, hfa⟩
    cases a with
    | str s p =>
        by_cases hd : stripNonDigits s == ""
        · simp [hd] at hfa
        · simp only [hd, if_false] at hfa
          obtain rfl : stripNonDigits s = d := Option.some.inj hfa
          exact ⟨⟨s, p, ha, rfl⟩, by simpa using hd⟩
    | null => simp at hfa
    | bool b => simp at hfa
    | num n => simp at hfa
    | arr xs => simp at hfa
    | obj kvs => simp at hfa
  · rintro ⟨⟨s, p, hsp, rfl⟩, hne⟩
    refine ⟨JVal.str s p, hsp, ?_⟩
    simp [hne]

theorem strOnly_mem_iff (l : List JVal) (s : String) :
    s ∈ l.filterMap strOnly ↔ ∃ p, JVal.str s p ∈ l := by
  rw [List.mem_filterMap]
  constructor
  · rintro ⟨a, ha, hfa⟩
    cases a with
    | str s' p =>
        obtain rfl : s' = s := by simpa [strOnly] using hfa
        exact ⟨p, ha⟩
    | null => simp [strOnly] at hfa
    | bool b => simp [strOnly] at hfa
    | num n => simp [strOnly] at hfa
    | arr xs => simp [strOnly] at hfa
    | obj kvs => simp [strOnly] at hfa
  · rintro ⟨p, hp⟩
    exact ⟨JVal.str s p, hp, rfl⟩

theorem filter_contains_ne_nil (sirens l : List String) :
    l.filter (fun c => sirens.contains c) ≠ [] ↔ ∃ d ∈ l, d ∈ sirens := by
  rw [Ne, List.filter_eq_nil_iff]
  push_neg
  simp

theorem matched_filter_iff (l : List JVal) (sirens : List String)
    (hlen : ∀ s ∈ sirens, s.length = 9) :
    (cleanRegistreValues l).filter (fun c => sirens.contains c) ≠ [] ↔
      ∃ v ∈ l.filterMap strOnly, stripNonDigits v ∈ sirens := by
  rw [filter_contains_ne_nil]
  constructor
  · rintro ⟨d, hdm, hds⟩
    obtain ⟨⟨s, p, hsp, rfl⟩, hne⟩ := (cleanRegistre_mem_iff l d).mp hdm
    exact ⟨s, (strOnly_mem_iff l s).mpr ⟨p, hsp⟩, hds⟩
  · rintro ⟨v, hv, hvs⟩
    obtain ⟨p, hp⟩ := (strOnly_mem_iff l v).mp hv
    refine ⟨stripNonDigits v, (cleanRegistre_mem_iff l _).mpr ⟨⟨v, p, hp, rfl⟩, ?_⟩, hvs⟩
    intro h0
    have h9 := hlen _ hvs
    rw [h0] at h9
    exact absurd h9 (by decide)

/-- Claim C7: with a registry of (9-digit) keys, a record passes the
identifier test exactly when some candidate taken from its `registre` field
(a single string, or the string elements of a list) equals a registry key
after every non-digit character is stripped; `"123 456 789"`,
`"123456789"` and `"SIREN:123456789"` all match key `"123456789"`, and a
`registre` value of any other type matches nothing. -/
theorem C7_identifier_matching :
    (∀ (record : List (String × JVal)) (sirens : List String),
      (∀ s ∈ sirens, s.length = 9) →
      (matchedSirens record sirens ≠ [] ↔
        ∃ v ∈ registreCandidates record, stripNonDigits v ∈ sirens)) ∧
    matchedSirens [("registre", JVal.str "123 456 789" none)] ["123456789"] = ["123456789"] ∧
    matchedSirens [("registre", JVal.str "123456789" (some (JVal.num 123456789)))]
      ["123456789"] = ["123456789"] ∧
    matchedSirens [("registre", JVal.str "SIREN:123456789" none)] ["123456789"] =
      ["123456789"] ∧
    matchedSirens [("registre", JVal.arr [JVal.str "SIREN:123456789" none])] ["123456789"] =
      ["123456789"] ∧
    matchedSirens [("registre", JVal.num 123456789)] ["123456789"] = [] ∧
    matchedSirens [("registre", JVal.bool true)] ["123456789"] = [] := by
  refine ⟨?_, rfl, rfl, rfl, rfl, rfl, rfl⟩
  intro record sirens hlen
  unfold matchedSirens registreCandidates
  cases hreg : recordGet record "registre" with
  | none => simp
  | some v =>
      cases hfv : jFalsy v
      · cases v with
        | str s p =>
            simpa [hfv, strOnly] using matched_filter_iff [JVal.str s p] sirens hlen
        | arr l =>
            simpa [hfv] using matched_filter_iff l sirens hlen
        | null => simp [jFalsy] at hfv
        | bool b => simp [hfv]
        | num n => simp [hfv]
        | obj kvs => simp [hfv]
      · simp [hfv]

theorem C7_identifier_matching_witness :
    (∀ s ∈ ["123456789"], String.length s = 9) ∧
    (matchedSirens [("registre", JVal.str "SIREN:123456789" none)] ["123456789"] ≠ [] ↔
      ∃ v ∈ registreCandidates [("registre", JVal.str "SIREN:123456789" none)],
        stripNonDigits v ∈ ["123456789"]) :=
  ⟨by decide, C7_identifier_matching.1 [("registre", JVal.str "SIREN:123456789" none)]
    ["123456789"] (by decide)⟩

/-! ### Keyword matching (claims C8, C9) -/
/-- The scan `containsSubList` decides the contiguous-substring relation. -/
theorem containsSubList_iff (n : List Char) : ∀ (h : List Char),
    containsSubList n h = true ↔ n <:+: h := by
  intro h
  induction h with
  | nil => simp [containsSubList, List.isEmpty_iff, List.infix_nil]
  | cons c t ih =>
      rw [containsSubList, Bool.or_eq_true, ih, List.isPrefixOf_iff_prefix,
        List.infix_cons_iff]

/-- Claim C8: a record is tagged by the keyword test exactly when its
collected text is non-empty and some keyword occurs as a contiguous
substring of that text normalized by lower-casing then stripping combining
marks after canonical decomposition; `"Liquidation Judiciaire"` matches
keyword `"liquidation judiciaire"`, `"clôture pour insuffisance d'actifs"`
matches the keyword spelled without the accent, and empty collected text
matches no keyword. -/
theorem C8_keyword_matching :
    (∀ (record : List (String × JVal)) (keywords : List String),
      shouldTagTopage record keywords = true ↔
        (collectedText record ≠ "" ∧
          ∃ k ∈ keywords,
            k.data <:+: (normalizeText (collectedText record)).data)) ∧
    flagKeywords "Jugement prononcant la Liquidation Judiciaire de la societe"
      ["liquidation judiciaire"] = true ∧
    flagKeywords ("avis de cl" ++ "ô" ++ "ture pour insuffisance d" ++ apo ++ "actifs prononcee")
      DEFAULT_TOPAGE_KEYWORDS = true ∧
    (∀ keywords, flagKeywords "" keywords = false) := by
  refine ⟨?_, by decide, by decide, fun keywords => rfl⟩
  intro record keywords
  unfold shouldTagTopage flagKeywords
  by_cases hk : keywords.isEmpty
  · rw [List.isEmpty_iff] at hk
    simp [hk]
  · simp only [hk, Bool.false_eq_true, if_false]
    by_cases ht : collectedText record = ""
    · simp [ht]
    · have hbeq : (collectedText record == "") = false := by simpa using ht
      simp only [hbeq, Bool.false_eq_true, if_false, List.any_eq_true]
      constructor
      · rintro ⟨k, hkmem, hc⟩
        exact ⟨ht, k, hkmem, (containsSubList_iff k.data _).mp hc⟩
      · rintro ⟨-, k, hkmem, hc⟩
        exact ⟨k, hkmem, (containsSubList_iff k.data _).mpr hc⟩

theorem deepCollectFields_eq : ∀ (kvs : List (String × JVal)),
    deepCollectFields kvs = kvs.flatMap (fun kv => deepCollectText kv.2) := by
  intro kvs
  induction kvs with
  | nil => rfl
  | cons kv t ih =>
      cases kv with
      | mk k v => simp [deepCollectFields, ih]

theorem deepCollectElems_eq : ∀ (l : List JVal),
    deepCollectElems l = l.flatMap deepCollectText := by
  intro l
  induction l with
  | nil => rfl
  | cons v t ih => simp [deepCollectElems, ih]

/-- Claim C9: the defining equations of the free-text collector — an object
contributes the collections of all its values, an array those of all its
elements, a string itself plus (when it parses as JSON) the collection of
the parse, anything else nothing — and the keyword test is the flag applied
to the space-joined collection over exactly the fixed candidate fields
present on the record. -/
theorem C9_deep_collect :
    (∀ fields, deepCollectText (JVal.obj fields) =
      fields.flatMap (fun kv => deepCollectText kv.2)) ∧
    (∀ elems, deepCollectText (JVal.arr elems) = elems.flatMap deepCollectText) ∧
    (∀ s, deepCollectText (JVal.str s none) = [s]) ∧
    (∀ s v, deepCollectText (JVal.str s (some v)) = s :: deepCollectText v) ∧
    deepCollectText JVal.null = [] ∧
    (∀ b, deepCollectText (JVal.bool b) = []) ∧
    (∀ n, deepCollectText (JVal.num n) = []) ∧
    topageFields = ["texte", "text", "objet", "description", "resume", "familleavis_lib",
      "typeavis_lib", "jugement", "modificationsgenerales", "divers"] ∧
    (∀ (record : List (String × JVal)) (keywords : List String),
      shouldTagTopage record keywords =
        (if keywords.isEmpty then false
         else flagKeywords (String.intercalate " " (topageFields.flatMap (fun f =>
           match recordGet record f with
           | some v => deepCollectText v
           | none => []))) keywords)) ∧
    deepCollectText (JVal.str jsonStrEx (some (JVal.obj [("a", JVal.str "x" none)]))) =
      [jsonStrEx, "x"] :=
  ⟨fun fields => deepCollectFields_eq fields, fun elems => deepCollectElems_eq elems,
    fun _ => rfl, fun _ _ => rfl, rfl, fun _ => rfl, fun _ => rfl, rfl,
    fun _ _ => rfl, rfl⟩

/-- Claim C10: record extraction is total with fixed precedence — a
`results` list wins and is unwrapped element-wise (inner `record` dict,
else inner `fields` dict, else the dict itself; non-dict elements dropped),
a `records` list is returned as-is only when `results` is absent or not a
list, and an empty or shape-less payload yields the empty list. -/
theorem C10_extract_records :
    (∀ (payload : List (String × JVal)) (items : List JVal), payload ≠ [] →
      recordGet payload "results" = some (JVal.arr items) →
      extractRecords payload = items.filterMap unwrapResultItem) ∧
    (∀ fields r, recordGet fields "record" = some (JVal.obj r) →
      unwrapResultItem (JVal.obj fields) = some (JVal.obj r)) ∧
    (∀ fields fr, (∀ r, recordGet fields "record" ≠ some (JVal.obj r)) →
      recordGet fields "fields" = some (JVal.obj fr) →
      unwrapResultItem (JVal.obj fields) = some (JVal.obj fr)) ∧
    (∀ fields, (∀ r, recordGet fields "record" ≠ some (JVal.obj r)) →
      (∀ fr, recordGet fields "fields" ≠ some (JVal.obj fr)) →
      unwrapResultItem (JVal.obj fields) = some (JVal.obj fields)) ∧
    (∀ s p, unwrapResultItem (JVal.str s p) = none) ∧
    (∀ xs, unwrapResultItem (JVal.arr xs) = none) ∧
    (∀ (payload : List (String × JVal)) (items : List JVal), payload ≠ [] →
      (∀ xs, recordGet payload "results" ≠ some (JVal.arr xs)) →
      recordGet payload "records" = some (JVal.arr items) →
      extractRecords payload = items) ∧
    extractRecords [] = [] ∧
    (∀ (payload : List (String × JVal)), payload ≠ [] →
      (∀ xs, recordGet payload "results" ≠ some (JVal.arr xs)) →
      (∀ xs, recordGet payload "records" ≠ some (JVal.arr xs)) →
      extractRecords payload = []) ∧
    extractRecords payloadEx = [JVal.obj [("numeroannonce", JVal.num 1)]] := by
  have hresults : ∀ (payload : List (String × JVal)), payload ≠ [] →
      extractRecords payload =
        (match recordGet payload "results" with
         | some (JVal.arr items) => items.filterMap unwrapResultItem
         | _ =>
             match recordGet payload "records" with
             | some (JVal.arr items) => items
             | _ => []) := by
    intro payload hne
    have hempty : payload.isEmpty = false := by
      cases payload with
      | nil => exact absurd rfl hne
      | cons a t => rfl
    unfold extractRecords
    rw [hempty]
    rfl
  refine ⟨?_, ?_, ?_, ?_, fun _ _ => rfl, fun _ => rfl, ?_, rfl, ?_, rfl⟩
  · intro payload items hne hres
    rw [hresults payload hne, hres]
  · intro fields r h
    simp only [unwrapResultItem]
    rw [h]
  · intro fields fr hnr hf
    unfold unwrapResultItem
    cases hr : recordGet fields "record" with
    | none => simp only [hr]; rw [hf]
    | some v =>
        cases v with
        | obj r => exact absurd hr (hnr r)
        | null => simp only [hr]; rw [hf]
        | bool b => simp only [hr]; rw [hf]
        | num n => simp only [hr]; rw [hf]
        | str s p => simp only [hr]; rw [hf]
        | arr xs => simp only [hr]; rw [hf]
  · intro fields hnr hnf
    unfold unwrapResultItem
    have hfields : (match recordGet fields "fields" with
        | some (JVal.obj fr) => some (JVal.obj fr)
        | _ => some (JVal.obj fields)) = some (JVal.obj fields) := by
      cases hf : recordGet fields "fields" with
      | none => rfl
      | some v =>
          cases v with
          | obj fr => exact absurd hf (hnf fr)
          | null => rfl
          | bool b => rfl
          | num n => rfl
          | str s p => rfl
          | arr xs => rfl
    cases hr : recordGet fields "record" with
    | none => simpa only [hr] using hfields
    | some v =>
        cases v with
        | obj r => exact absurd hr (hnr r)
        | null => simpa only [hr] using hfields
        | bool b => simpa only [hr] using hfields
        | num n => simpa only [hr] using hfields
        | str s p => simpa only [hr] using hfields
        | arr xs => simpa only [hr] using hfields
  · intro payload items hne hnres hrec
    rw [hresults payload hne]
    cases hres : recordGet payload "results" with
    | none => simp only [hres]; rw [hrec]
    | some v =>
        cases v with
        | arr xs => exact absurd hres (hnres xs)
        | null => simp only [hres]; rw [hrec]
        | bool b => simp only [hres]; rw [hrec]
        | num n => simp only [hres]; rw [hrec]
        | str s p => simp only [hres]; rw [hrec]
        | obj kvs => simp only [hres]; rw [hrec]
  · intro payload hne hnres hnrec
    rw [hresults payload hne]
    have hrecords : (match recordGet payload "records" with
        | some (JVal.arr items) => items
        | _ => ([] : List JVal)) = [] := by
      cases hrec : recordGet payload "records" with
      | none => rfl
      | some v =>
          cases v with
          | arr xs => exact absurd hrec (hnrec xs)
          | null => rfl
          | bool b => rfl
          | num n => rfl
          | str s p => rfl
          | obj kvs => rfl
    cases hres : recordGet payload "results" with
    | none => simpa only [hres] using hrecords
    | some v =>
        cases v with
        | arr xs => exact absurd hres (hnres xs)
        | null => simpa only [hres] using hrecords
        | bool b => simpa only [hres] using hrecords
        | num n => simpa only [hres] using hrecords
        | str s p => simpa only [hres] using hrecords
        | obj kvs => simpa only [hres] using hrecords

theorem C10_extract_records_witness :
    payloadEx ≠ [] ∧
    recordGet payloadEx "results" = some (JVal.arr
      [JVal.obj [("record", JVal.obj [("numeroannonce", JVal.num 1)])], JVal.num 7]) ∧
    extractRecords payloadEx =
      ([JVal.obj [("record", JVal.obj [("numeroannonce", JVal.num 1)])],
        JVal.num 7]).filterMap unwrapResultItem :=
  ⟨List.cons_ne_nil _ _, rfl,
    C10_extract_records.1 payloadEx _ (List.cons_ne_nil _ _) rfl⟩

/-! ### Behaviour of the per-file scan and write loop (claim C6) -/
theorem mem_insertSeen (day d : String) (seen : List String) :
    d ∈ insertSeen day seen ↔ d ∈ seen ∨ d = day := by
  unfold insertSeen
  by_cases h : seen.contains day
  · have hday : day ∈ seen := by simpa using h
    simp only [h, if_true]
    constructor
    · exact Or.inl
    · rintro (h1 | rfl)
      · exact h1
      · exact hday
  · have hnm : day ∉ seen := by simpa using h
    simp [h, hnm]

theorem mem_insertSeen_self (day : String) (seen : List String) :
    day ∈ insertSeen day seen := (mem_insertSeen day day seen).mpr (Or.inr rfl)

theorem insertSeen_nodup (day : String) (seen : List String) (h : seen.Nodup) :
    (insertSeen day seen).Nodup := by
  unfold insertSeen
  by_cases hc : seen.contains day
  · have hday : day ∈ seen := by simpa using hc
    simp [hc, hday, h]
  · have hnm : day ∉ seen := by simpa using hc
    simp [hc, List.nodup_append, h, hnm]

theorem insertSeen_of_not_contains (day : String) (seen : List String)
    (h : seen.contains day = false) : insertSeen day seen = seen ++ [day] := by
  have hnm : day ∉ seen := by simpa using h
  simp [insertSeen, h, hnm]

/-- Each record either leaves `seen_per_day` unchanged or inserts exactly
its own (parsed, not-yet-done) publication day. -/
theorem scanRecord_seen (sirens keywords : List String) (infos : List (String × SirenInfo))
    (existing : List String) (acc : ScanAcc) (record : List (String × JVal)) :
    (scanRecord sirens keywords infos existing acc record).seen = acc.seen ∨
    ∃ day, recordDay record = some day ∧ existing.contains day = false ∧
      (scanRecord sirens keywords infos existing acc record).seen = insertSeen day acc.seen := by
  unfold scanRecord
  cases hd : recordDay record with
  | none => exact Or.inl rfl
  | some day =>
      dsimp only
      by_cases hex : existing.contains day
      · left
        rw [if_pos hex]
      · right
        refine ⟨day, rfl, by simpa using hex, ?_⟩
        rw [if_neg hex]
        split
        · rfl
        · split <;> rfl

theorem scanRecord_seen_of_day (sirens keywords : List String)
    (infos : List (String × SirenInfo)) (existing : List String) (acc : ScanAcc)
    (record : List (String × JVal)) (day : String)
    (hday : recordDay record = some day) (hex : existing.contains day = false) :
    (scanRecord sirens keywords infos existing acc record).seen = insertSeen day acc.seen := by
  unfold scanRecord
  rw [hday]
  dsimp only
  rw [if_neg (by simpa using hex)]
  split
  · rfl
  · split <;> rfl

theorem scan_foldl_seen_mono (sirens keywords : List String)
    (infos : List (String × SirenInfo)) (existing : List String) :
    ∀ (records : List (List (String × JVal))) (acc : ScanAcc) (d : String),
      d ∈ acc.seen →
      d ∈ (records.foldl (scanRecord sirens keywords infos existing) acc).seen := by
  intro records
  induction records with
  | nil => intro acc d h; exact h
  | cons r rest ih =>
      intro acc d h
      simp only [List.foldl_cons]
      apply ih
      rcases scanRecord_seen sirens keywords infos existing acc r with h1 | ⟨day, _, _, h1⟩
      · rw [h1]; exact h
      · rw [h1]; exact (mem_insertSeen day d acc.seen).mpr (Or.inl h)

theorem scan_foldl_seen_complete (sirens keywords : List String)
    (infos : List (String × SirenInfo)) (existing : List String) :
    ∀ (records : List (List (String × JVal))) (acc : ScanAcc)
      (r : List (String × JVal)) (day : String), r ∈ records →
      recordDay r = some day → existing.contains day = false →
      day ∈ (records.foldl (scanRecord sirens keywords infos existing) acc).seen := by
  intro records
  induction records with
  | nil => intro acc r day hr _ _; exact absurd hr (List.not_mem_nil r)
  | cons r0 rest ih =>
      intro acc r day hr hday hex
      simp only [List.foldl_cons]
      rcases List.mem_cons.mp hr with rfl | hr'
      · apply scan_foldl_seen_mono
        rw [scanRecord_seen_of_day sirens keywords infos existing acc r day hday hex]
        exact mem_insertSeen_self day acc.seen
      · exact ih _ r day hr' hday hex

theorem scan_foldl_seen_sound (sirens keywords : List String)
    (infos : List (String × SirenInfo)) (existing : List String) :
    ∀ (records : List (List (String × JVal))) (acc : ScanAcc) (d : String),
      d ∈ (records.foldl (scanRecord sirens keywords infos existing) acc).seen →
      d ∈ acc.seen ∨ (existing.contains d = false ∧ ∃ r ∈ records, recordDay r = some d) := by
  intro records
  induction records with
  | nil => intro acc d h; exact Or.inl h
  | cons r rest ih =>
      intro acc d h
      simp only [List.foldl_cons] at h
      rcases ih _ d h with h1 | ⟨hex, r', hr', hday⟩
      · rcases scanRecord_seen sirens keywords infos existing acc r with h2 | ⟨day, hday, hex, h2⟩
        · rw [h2] at h1; exact Or.inl h1
        · rw [h2] at h1
          rcases (mem_insertSeen day d acc.seen).mp h1 with h3 | rfl
          · exact Or.inl h3
          · exact Or.inr ⟨hex, r, List.mem_cons_self r rest, hday⟩
      · exact Or.inr ⟨hex, r', List.mem_cons_of_mem r hr', hday⟩

theorem scan_foldl_seen_nodup (sirens keywords : List String)
    (infos : List (String × SirenInfo)) (existing : List String) :
    ∀ (records : List (List (String × JVal))) (acc : ScanAcc), acc.seen.Nodup →
      (records.foldl (scanRecord sirens keywords infos existing) acc).seen.Nodup := by
  intro records
  induction records with
  | nil => intro acc h; exact h
  | cons r rest ih =>
      intro acc h
      simp only [List.foldl_cons]
      apply ih
      rcases scanRecord_seen sirens keywords infos existing acc r with h1 | ⟨day, _, _, h1⟩
      · rw [h1]; exact h
      · rw [h1]; exact insertSeen_nodup day acc.seen h

theorem mem_sortedInsertStr (s d : String) : ∀ (l : List String),
    d ∈ sortedInsertStr s l ↔ d = s ∨ d ∈ l := by
  intro l
  induction l with
  | nil => simp [sortedInsertStr]
  | cons t ts ih =>
      unfold sortedInsertStr
      by_cases h : strLtB t s
      · simp only [h, if_true, List.mem_cons, ih]
        tauto
      · simp only [h, Bool.false_eq_true, if_false, List.mem_cons]

theorem mem_sortStrs (d : String) : ∀ (l : List String), d ∈ sortStrs l ↔ d ∈ l := by
  intro l
  induction l with
  | nil => simp [sortStrs]
  | cons s ss ih =>
      simp [sortStrs, mem_sortedInsertStr, ih]

theorem nodup_sortedInsertStr (s : String) : ∀ (l : List String), l.Nodup → s ∉ l →
    (sortedInsertStr s l).Nodup := by
  intro l
  induction l with
  | nil => intro _ _; simp [sortedInsertStr]
  | cons t ts ih =>
      intro hnd hs
      unfold sortedInsertStr
      rcases List.nodup_cons.mp hnd with ⟨ht, hts⟩
      by_cases h : strLtB t s
      · rw [if_pos h]
        refine List.nodup_cons.mpr ⟨?_, ih hts (fun hx => hs (List.mem_cons_of_mem t hx))⟩
        intro hx
        rcases (mem_sortedInsertStr s t ts).mp hx with rfl | hx2
        · exact hs (List.mem_cons_self t ts)
        · exact ht hx2
      · rw [if_neg h]
        exact List.nodup_cons.mpr ⟨hs, hnd⟩

theorem nodup_sortStrs : ∀ (l : List String), l.Nodup → (sortStrs l).Nodup := by
  intro l
  induction l with
  | nil => intro _; exact List.nodup_nil
  | cons s ss ih =>
      intro hnd
      rcases List.nodup_cons.mp hnd with ⟨hs, hss⟩
      exact nodup_sortedInsertStr s (sortStrs ss) (ih hss)
        (fun hx => hs ((mem_sortStrs s ss).mp hx))

/-- The write loop appends exactly one output file per (distinct, not yet
existing) day, in the order given, with that day's kept bucket. -/
theorem writeLoop_outputs (kept : List (String × List (List (String × JVal)))) :
    ∀ (ds : List String) (st : FilterSt), ds.Nodup →
      (∀ d ∈ ds, st.existing.contains d = false) →
      (ds.foldl (writeStep kept) st).outputs =
        st.outputs ++ ds.map (fun d => (d, getKept kept d)) := by
  intro ds
  induction ds with
  | nil => intro st _ _; simp
  | cons d ds ih =>
      intro st hnd hex
      simp only [List.foldl_cons]
      have hd : st.existing.contains d = false := hex d (List.mem_cons_self d ds)
      have hstep : writeStep kept st d =
          { existing := st.existing ++ [d], outputs := st.outputs ++ [(d, getKept kept d)] } := by
        unfold writeStep writeDayFile
        rw [if_neg (by simpa using hd)]
        dsimp only
        rw [insertSeen_of_not_contains d st.existing hd]
      rw [hstep]
      rcases List.nodup_cons.mp hnd with ⟨hdd, hnd'⟩
      rw [ih _ hnd' ?_]
      · simp
      · intro d' hd'
        have h1 : d' ∉ st.existing := by simpa using hex d' (List.mem_cons_of_mem d hd')
        have h2 : d' ≠ d := fun h => hdd (h ▸ hd')
        simp [h1, h2]

/-- Claim C6 counterexample: the file-level skip keys on the *nominal*
filename day.  Here day 20240105 already has a filtered artifact, so the
whole source file is skipped — and its record published on 2024-01-06
(whose artifact does not exist, and which matches both the SIREN registry
and the keyword vocabulary) produces nothing: no FilteredDayArtifact is
written for day 20240106 although that publication day is present among the
input records.  The same file processed when 20240105 is not yet done does
produce the 20240106 artifact. -/
theorem C6_counterexample :
    recordDay recJan6 = some "20240106" ∧
    (["20240105"] : List String).contains "20240106" = false ∧
    (filterRecordsRun ["123456789"] ["liquidation judiciaire"] infosEx ["20240105"]
      [fileEx6]).outputs = [] ∧
    (filterRecordsRun ["123456789"] ["liquidation judiciaire"] infosEx []
      [fileEx6]).outputs =
      [("20240106", [enrichRecord recJan6 ["123456789"] infosEx])] :=
  ⟨rfl, rfl, rfl, rfl⟩

/-- Claim C6 (amended): the filter groups its output by the publication date
parsed from each record's own `dateparution` field — except that a whole
source file is skipped (contributing nothing, for any day) when its nominal
filename day already has a FilteredDayArtifact.  For a file that is not
skipped: exactly one FilteredDayArtifact is written per publication day
seen among its records (in ascending day order), holding that day's kept
records — the empty list when no record of the day matched; a day whose
artifact already exists is skipped at record level and never re-produced;
the days seen are exactly the parsed publication dates of the file's
records, regardless of the file's nominal day. -/
theorem C6_filter_day_grouping (sirens keywords : List String)
    (infos : List (String × SirenInfo)) (st : FilterSt) (file : InputFile) :
    (∀ d, file.nameDay = some d → st.existing.contains d = true →
      processFile sirens keywords infos st file = st) ∧
    ((∀ d, file.nameDay = some d → st.existing.contains d = false) →
      (processFile sirens keywords infos st file).outputs =
        st.outputs ++
          (sortStrs (scanFile sirens keywords infos st.existing file).seen).map
            (fun d => (d, getKept (scanFile sirens keywords infos st.existing file).kept d))) ∧
    (∀ d ∈ (scanFile sirens keywords infos st.existing file).seen,
      st.existing.contains d = false ∧ ∃ r ∈ file.records, recordDay r = some d) ∧
    (∀ r ∈ file.records, ∀ d, recordDay r = some d → st.existing.contains d = false →
      d ∈ (scanFile sirens keywords infos st.existing file).seen) := by
  refine ⟨?_, ?_, ?_, ?_⟩
  · intro d hval hex
    unfold processFile
    rw [hval]
    dsimp only
    rw [if_pos hex]
  · intro hnone
    have hskip : (match file.nameDay with
        | some d => st.existing.contains d
        | none => false) = false := by
      cases hv : file.nameDay with
      | none => rfl
      | some d => exact hnone d hv
    unfold processFile
    dsimp only
    rw [hskip]
    simp only [Bool.false_eq_true, if_false]
    apply writeLoop_outputs
    · exact nodup_sortStrs _
        (scan_foldl_seen_nodup sirens keywords infos st.existing file.records
          ⟨[], []⟩ List.nodup_nil)
    · intro d hd
      have hd' : d ∈ (file.records.foldl (scanRecord sirens keywords infos st.existing)
          ⟨[], []⟩).seen := (mem_sortStrs d _).mp hd
      rcases scan_foldl_seen_sound sirens keywords infos st.existing file.records
          ⟨[], []⟩ d hd' with h | ⟨hex, _⟩
      · exact absurd h (List.not_mem_nil d)
      · exact hex
  · intro d hd
    have hd2 : d ∈ (file.records.foldl (scanRecord sirens keywords infos st.existing)
        ⟨[], []⟩).seen := hd
    rcases scan_foldl_seen_sound sirens keywords infos st.existing file.records
        ⟨[], []⟩ d hd2 with h | h
    · exact absurd h (List.not_mem_nil d)
    · exact h
  · intro r hr d hday hex
    exact scan_foldl_seen_complete sirens keywords infos st.existing file.records
      ⟨[], []⟩ r d hr hday hex

theorem C6_filter_day_grouping_witness :
    (∀ d, fileEx7.nameDay = some d → emptyFilterSt.existing.contains d = false) ∧
    (processFile ["123456789"] ["liquidation judiciaire"] infosEx emptyFilterSt
      fileEx7).outputs =
      [("20240106", [enrichRecord recJan6 ["123456789"] infosEx]), ("20240107", [])] := by
  have hnone : ∀ d, fileEx7.nameDay = some d → emptyFilterSt.existing.contains d = false := by
    intro d hd
    have h2 : "20240106" = d := Option.some.inj hd
    subst h2
    rfl
  refine ⟨hnone, ?_⟩
  have h := (C6_filter_day_grouping ["123456789"] ["liquidation judiciaire"] infosEx
    emptyFilterSt fileEx7).2.1 hnone
  rw [h]
  rfl

end Bodacc

